import Mathlib

/-!
Verification of the CMD-Pilot Command Safety Gateway against its source.

The Python sources are shallowly embedded here:
* `src/cmd_pilot/security.py` — `CommandValidator.is_safe`, `assess_risk`,
  module-level `sanitize_command` (with `shlex.split` modelled as a lexer
  state machine, and the blacklist regexes as executable matchers);
* `src/cmd_pilot/utils/security.py` — the `utils` variant of
  `CommandValidator` (`sanitize_command`, `is_safe`, `assess_risk`);
* `src/cmd_pilot/command_engine.py` — `CommandContext`, the result shape
  of `async_generate_command`, and the entry of
  `CommandEngine.async_execute`;
* `src/main.py` — the `execute` method (allow-list check, risky-command
  confirmation, `subprocess.Popen` invocation) and `analyze_risk`.

Commands are modelled as `List Char` (a Python `str` is a sequence of
characters; all inputs considered are ASCII, so Python's Unicode-aware
whitespace handling coincides with the ASCII whitespace sets used here).
Fallible Python code (functions that can raise) returns `Option`/`Except`.
-/

namespace CmdPilot

/-- The backslash character (escape character of `shlex`). -/
def cBackslash : Char := Char.ofNat 92

/-- The single-quote character. -/
def cSQuote : Char := Char.ofNat 39

/-- The double-quote character. -/
def cDQuote : Char := Char.ofNat 34

/-- The left curly brace character. -/
def cLBrace : Char := Char.ofNat 123

/-- The right curly brace character. -/
def cRBrace : Char := Char.ofNat 125

/-- The backtick character. -/
def cBacktick : Char := Char.ofNat 96

/-- `shlex.whitespace`: the characters the `shlex` lexer splits on. -/
def isShlexWs (c : Char) : Bool :=
  c = ' ' || c = '\t' || c = '\r' || c = '\n'

/-- ASCII whitespace as recognised by Python `str.strip()` / `str.split()`:
space, tab, newline, carriage return, vertical tab, form feed. -/
def isPyWs (c : Char) : Bool :=
  c = ' ' || c = '\t' || c = '\n' || c = '\r' ||
  c = Char.ofNat 11 || c = Char.ofNat 12

/-- Remove trailing characters satisfying `p` (helper for `pyStrip`). -/
def dropTrailWhile (p : Char → Bool) (s : List Char) : List Char :=
  (s.reverse.dropWhile p).reverse

/-- Python `str.strip()` (ASCII whitespace). -/
def pyStrip (s : List Char) : List Char :=
  dropTrailWhile isPyWs (s.dropWhile isPyWs)

/-- Helper for `splitWs`: accumulates the current word (reversed) while
scanning. -/
def splitWsGo : List Char → List Char → List (List Char)
  | cur, [] => if cur = [] then [] else [cur.reverse]
  | cur, c :: cs =>
    if isPyWs c then
      if cur = [] then splitWsGo [] cs else cur.reverse :: splitWsGo [] cs
    else splitWsGo (c :: cur) cs

/-- Python `str.split()` with no argument: split on runs of whitespace,
discarding empty fields. -/
def splitWs (s : List Char) : List (List Char) := splitWsGo [] s

/-- Python `' '.join(ws)`. -/
def joinSp : List (List Char) → List Char
  | [] => []
  | [w] => w
  | w :: ws => w ++ ' ' :: joinSp ws

/-- Does this character list contain no newline, except possibly as its
final character?  This is exactly the condition under which the regex
`#.*$` (no `re.MULTILINE`) matches starting at a `#` placed in front of the
list: `.*` cannot cross a newline and `$` only matches at the end of the
string or just before a terminating newline. -/
def noNlExceptLast : List Char → Bool
  | [] => true
  | [_] => true
  | c :: cs => c ≠ '\n' && noNlExceptLast cs

/-- `re.sub(r'#.*$', '', s)` for the comment-stripping in
`utils/security.py` `CommandValidator.sanitize_command`: scanning left to
right, at the first `#` from which `#.*$` matches, the matched tail is
deleted (a terminating newline survives, since `$` matches just before
it); a `#` that is followed by a newline before the final position matches
nothing and is kept. -/
def reSubCE : List Char → List Char
  | [] => []
  | c :: cs =>
    if c = '#' && noNlExceptLast cs then
      if cs.getLast? = some '\n' then ['\n'] else []
    else c :: reSubCE cs

/-- `utils/security.py` `CommandValidator.sanitize_command`:
empty input gives `""`; otherwise strip the `#.*$` comment and collapse
whitespace runs via `' '.join(cleaned.split())`. -/
def utilsSanitizeCommand (cmd : List Char) : List Char :=
  if cmd = [] then [] else joinSp (splitWs (reSubCE cmd))

/-! ## The `shlex.split` lexer

`shlex.split(s)` with `posix=True`, `whitespace_split=True` and no
commenters, modelled as a character-by-character state machine.
Failure (`ValueError`: "No closing quotation" / "No escaped character")
is `none`. -/

/-- Lexer mode: outside any token, inside a word, inside single or double
quotes, or immediately after an escape character (from a word or from
inside double quotes). -/
inductive SMode where
  | ws | word | squote | dquote | escWord | escDquote
deriving DecidableEq, Repr

/-- Lexer state: emitted tokens, current token, whether the current token
saw a quote (so that an empty quoted token is still emitted), and mode. -/
structure LexSt where
  toks : List (List Char)
  cur : List Char
  quoted : Bool
  mode : SMode
deriving DecidableEq, Repr

/-- Initial lexer state. -/
def lexInit : LexSt := ⟨[], [], false, .ws⟩

/-- One step of the `shlex` lexer on one input character. -/
def lexStep (st : LexSt) (c : Char) : LexSt :=
  match st.mode with
  | .ws =>
    if isShlexWs c then st
    else if c = cBackslash then { st with mode := .escWord }
    else if c = cSQuote then { st with quoted := true, mode := .squote }
    else if c = cDQuote then { st with quoted := true, mode := .dquote }
    else { st with cur := [c], mode := .word }
  | .word =>
    if isShlexWs c then
      if st.cur ≠ [] || st.quoted then
        { toks := st.toks ++ [st.cur], cur := [], quoted := false, mode := .ws }
      else { st with mode := .ws }
    else if c = cBackslash then { st with mode := .escWord }
    else if c = cSQuote then { st with quoted := true, mode := .squote }
    else if c = cDQuote then { st with quoted := true, mode := .dquote }
    else { st with cur := st.cur ++ [c] }
  | .squote =>
    if c = cSQuote then { st with mode := .word }
    else { st with cur := st.cur ++ [c] }
  | .dquote =>
    if c = cDQuote then { st with mode := .word }
    else if c = cBackslash then { st with mode := .escDquote }
    else { st with cur := st.cur ++ [c] }
  | .escWord => { st with cur := st.cur ++ [c], mode := .word }
  | .escDquote =>
    if c = cDQuote || c = cBackslash then
      { st with cur := st.cur ++ [c], mode := .dquote }
    else { st with cur := st.cur ++ [cBackslash, c], mode := .dquote }

/-- Run the lexer over a list of characters. -/
def lexRun (st : LexSt) (s : List Char) : LexSt := s.foldl lexStep st

/-- End of input: inside quotes or after a dangling escape the lexer
raises (`none`); otherwise the pending token is emitted if it is nonempty
or was quoted. -/
def lexFinish (st : LexSt) : Option (List (List Char)) :=
  match st.mode with
  | .squote | .dquote | .escWord | .escDquote => none
  | _ => some (st.toks ++ (if st.cur ≠ [] || st.quoted then [st.cur] else []))

/-- `shlex.split(s)` (posix rules); `none` models the `ValueError` raised
on unbalanced quotes or a dangling escape character. -/
def shlexSplit (s : List Char) : Option (List (List Char)) :=
  lexFinish (lexRun lexInit s)

example : shlexSplit "ls -la".toList = some ["ls".toList, "-la".toList] := by decide

/-! ## Executable regex matchers

The Python sources use `re.search` with a fixed finite set of patterns
built from literals, character classes, `\s*`/`\s+`, `.*`, `[^\s]*`,
`\w+`, bounded repetition and top-level alternation.  Each pattern is
compiled by hand into a list of alternatives, each alternative being a
sequence of tokens (`one p` = one character satisfying `p`; `many p` =
zero or more, with full backtracking).  `re.search` semantics = match at
some start position. -/

/-- A matcher token: exactly one character satisfying `p`, or zero or
more characters satisfying `p` (with backtracking). -/
inductive Tok where
  | one (p : Char → Bool)
  | many (p : Char → Bool)

/-- Fuel-driven token-sequence matcher (the fuel makes the recursion
structural; `matchToks` supplies enough fuel for full backtracking). -/
def matchToksF : Nat → List Tok → List Char → Bool
  | 0, _, _ => false
  | _ + 1, [], _ => true
  | _ + 1, .one _ :: _, [] => false
  | f + 1, .one p :: ts, c :: cs => p c && matchToksF f ts cs
  | f + 1, .many p :: ts, s =>
    matchToksF f ts s ||
      (match s with
       | [] => false
       | c :: cs => p c && matchToksF f (.many p :: ts) cs)

/-- Does the token sequence match a prefix of `s` (like an anchored
regex match at the current position)?  Every recursive call of
`matchToksF` decreases `ts.length + s.length`, so this fuel is enough. -/
def matchToks (ts : List Tok) (s : List Char) : Bool :=
  matchToksF (ts.length + s.length + 1) ts s

/-- `re.search`: does some alternative match at some position of `s`? -/
def searchToks (alts : List (List Tok)) : List Char → Bool
  | [] => alts.any fun ts => matchToks ts []
  | c :: cs => (alts.any fun ts => matchToks ts (c :: cs)) || searchToks alts cs

/-- Python `\w` (ASCII): letters, digits, underscore. -/
def isWordChar (c : Char) : Bool := c.isAlphanum || c = '_'

/-- A `\b` boundary holds before a word character iff the preceding
character (if any) is not a word character. -/
def boundaryOk : Option Char → Bool
  | none => true
  | some c => !isWordChar c

/-- `re.search` for a pattern starting with `\b` followed by a word
character: only positions preceded by a non-word character (or the start
of the string) are tried. -/
def searchToksBAux (alts : List (List Tok)) : Option Char → List Char → Bool
  | prev, [] => boundaryOk prev && (alts.any fun ts => matchToks ts [])
  | prev, c :: cs =>
    (boundaryOk prev && (alts.any fun ts => matchToks ts (c :: cs))) ||
      searchToksBAux alts (some c) cs

/-- `re.search` with a leading `\b` (see `searchToksBAux`). -/
def searchToksB (alts : List (List Tok)) (s : List Char) : Bool :=
  searchToksBAux alts none s

/-- Compile a literal into matcher tokens. -/
def litToks (s : String) : List Tok := s.toList.map fun c => Tok.one (· = c)

/-- `\s*` (Python `\s` over ASCII is the same six characters as `isPyWs`). -/
def wsStar : Tok := .many isPyWs

/-- `\s+`. -/
def wsPlus : List Tok := [.one isPyWs, .many isPyWs]

/-- `.*` (no `re.DOTALL`: anything but newline). -/
def dotStar : Tok := .many (· ≠ '\n')

/-- `[^\s]*`. -/
def nonWsStar : Tok := .many fun c => !isPyWs c

/-- `[^\s]+`. -/
def nonWsPlus : List Tok := [.one fun c => !isPyWs c, .many fun c => !isPyWs c]

/-- `\w+`. -/
def wordPlus : List Tok := [.one isWordChar, .many isWordChar]

/-- A command-chaining separator `[&|;]`. -/
def isSepChar (c : Char) : Bool := c = '&' || c = '|' || c = ';'

/-- After an initial separator: `\s*[&|;]` — skip whitespace, then a
second separator must follow. -/
def afterSep : List Char → Bool
  | [] => false
  | c :: cs =>
    if isSepChar c then true else if isPyWs c then afterSep cs else false

/-- `re.search(r'[&|;]\s*[&|;]', s)`: two control-flow separators in
sequence, separated only by whitespace (the first blacklist pattern of
`security.py`). -/
def sepChainSearch : List Char → Bool
  | [] => false
  | c :: cs => (isSepChar c && afterSep cs) || sepChainSearch cs

/-- `[0-7]`. -/
def isOctal (c : Char) : Bool := '0' ≤ c && c ≤ '7'

/-- `[a-z]`. -/
def isLowerAlpha (c : Char) : Bool := 'a' ≤ c && c ≤ 'z'

/-- `security.py` `CommandValidator.BLACKLISTED_PATTERNS`, compiled with
no flags (case sensitive), in source order. -/
def blacklistMatchers : List (List Char → Bool) :=
  [ -- r'[&|;]\s*[&|;]'
    sepChainSearch,
    -- r'[`$]\s*\(.*\)|\$\{.*\}'
    searchToks
      [[.one fun c => c = cBacktick || c = '$', wsStar, .one (· = '('),
        dotStar, .one (· = ')')],
       [.one (· = '$'), .one (· = cLBrace), dotStar, .one (· = cRBrace)]],
    -- r'\|\s*[a-z]'
    searchToks [[.one (· = '|'), wsStar, .one isLowerAlpha]],
    -- r'(rm|del)\s+-[rf]|[sq]'
    searchToks
      [litToks "rm" ++ wsPlus ++ [.one (· = '-'), .one fun c => c = 'r' || c = 'f'],
       litToks "del" ++ wsPlus ++ [.one (· = '-'), .one fun c => c = 'r' || c = 'f'],
       [.one fun c => c = 's' || c = 'q']],
    -- r'chmod\s+[0-7]{3,4}'
    searchToks
      [litToks "chmod" ++ wsPlus ++ [.one isOctal, .one isOctal, .one isOctal, .one isOctal],
       litToks "chmod" ++ wsPlus ++ [.one isOctal, .one isOctal, .one isOctal]],
    -- r'(wget|curl)\s+https?://'
    searchToks
      [litToks "wget" ++ wsPlus ++ litToks "https://",
       litToks "wget" ++ wsPlus ++ litToks "http://",
       litToks "curl" ++ wsPlus ++ litToks "https://",
       litToks "curl" ++ wsPlus ++ litToks "http://"],
    -- r'(nc|ncat|netcat)\s+-[a-z]'
    searchToks
      [litToks "nc" ++ wsPlus ++ [.one (· = '-'), .one isLowerAlpha],
       litToks "ncat" ++ wsPlus ++ [.one (· = '-'), .one isLowerAlpha],
       litToks "netcat" ++ wsPlus ++ [.one (· = '-'), .one isLowerAlpha]],
    -- r'(python|perl|ruby|bash)\s+-[c]'
    searchToks
      [litToks "python" ++ wsPlus ++ litToks "-c",
       litToks "perl" ++ wsPlus ++ litToks "-c",
       litToks "ruby" ++ wsPlus ++ litToks "-c",
       litToks "bash" ++ wsPlus ++ litToks "-c"],
    -- r'base64\s+-d'
    searchToks [litToks "base64" ++ wsPlus ++ litToks "-d"],
    -- r'(\.\/|\.\.\/|\/etc\/|\/tmp\/)[^\s]*'
    searchToks
      [litToks "./" ++ [nonWsStar],
       litToks "../" ++ [nonWsStar],
       litToks "/etc/" ++ [nonWsStar],
       litToks "/tmp/" ++ [nonWsStar]],
    -- r'(ssh|scp|sftp)\s+[^\s]+@[^\s]+'
    searchToks
      [litToks "ssh" ++ wsPlus ++ nonWsPlus ++ [Tok.one (· = '@')] ++ nonWsPlus,
       litToks "scp" ++ wsPlus ++ nonWsPlus ++ [Tok.one (· = '@')] ++ nonWsPlus,
       litToks "sftp" ++ wsPlus ++ nonWsPlus ++ [Tok.one (· = '@')] ++ nonWsPlus] ]

/-- Is `l` a prefix of `s` (Boolean)? -/
def isPrefixChars : List Char → List Char → Bool
  | [], _ => true
  | _ :: _, [] => false
  | a :: as, b :: bs => a = b && isPrefixChars as bs

/-- Python `sub in s` (substring test): does `l` occur contiguously in
`s`? -/
def isInfixChars (l : List Char) : List Char → Bool
  | [] => isPrefixChars l []
  | b :: bs => isPrefixChars l (b :: bs) || isInfixChars l bs

/-! ## `security.py` `CommandValidator` -/

/-- Python exceptions escaping the modelled functions. -/
inductive PyErr where
  | valueError
  | indexError
  | securityError (msg : List Char)
deriving DecidableEq, Repr

deriving instance DecidableEq for Except

/-- `CommandValidator._check_filesystem_access`: no parsed token may be
one of the dangerous operation names. -/
def checkFilesystemAccess (parsed : List (List Char)) : Bool :=
  parsed.all fun t =>
    !decide (t ∈ [ "rm".toList, "del".toList, "mv".toList, "chmod".toList,
        "chown".toList ])

/-- `security.py` `CommandValidator.is_safe` with the validator's
`_allowed_commands` as the `allowed` parameter.  Returns `Except` because
`parsed[0]` would raise `IndexError` if `shlex.split` returned an empty
list (shown unreachable below); the `ValueError` from `shlex.split` is
caught by the source and yields `False`. -/
def isSafeE (allowed : List (List Char)) (command : List Char) :
    Except PyErr Bool :=
  let c := pyStrip command
  if c = [] then .ok false
  else if isInfixChars "../".toList c || isInfixChars "/./".toList c then .ok false
  else if isInfixChars "$(".toList c ||
      isInfixChars ("$".toList ++ [cLBrace]) c then .ok false
  else
    match shlexSplit c with
    | none => .ok false
    | some [] => .error .indexError
    | some (t :: ts) =>
      .ok (decide (t ∈ allowed) && !(blacklistMatchers.any fun m => m c) &&
        checkFilesystemAccess (t :: ts))

/-- `RiskAssessment` as built by `security.py` `assess_risk`. -/
structure Risk where
  level : List Char
  score : Nat
  reasons : List (List Char)
  suggestions : List (List Char)
deriving DecidableEq, Repr

/-- `network_ops` weights of `assess_risk`, in source order. -/
def networkOps : List (List Char × Nat) :=
  [("wget".toList, 40), ("curl".toList, 40), ("nc".toList, 50),
   ("ssh".toList, 30), ("scp".toList, 30), ("telnet".toList, 50)]

/-- `danger_ops` weights of `assess_risk`, in source order. -/
def dangerOps : List (List Char × Nat) :=
  [("rm".toList, 30), ("del".toList, 30), ("kill".toList, 25),
   ("chmod".toList, 20), ("mv".toList, 15), (">".toList, 10)]

/-- The ops whose name occurs in the command (Python `op in command` is a
substring test). -/
def opsHits (ops : List (List Char × Nat)) (cmd : List Char) :
    List (List Char × Nat) :=
  ops.filter fun ow => isInfixChars ow.1 cmd

/-- The final `level` thresholds of `assess_risk`. -/
def riskLevelOfScore (score : Nat) : List Char :=
  if score ≥ 50 then "critical".toList
  else if score ≥ 30 then "high".toList
  else if score ≥ 15 then "medium".toList
  else "low".toList

/-- `security.py` `CommandValidator.assess_risk`.  `shlex.split` is
applied to the command for the complexity penalty and raises
`ValueError` on unbalanced quotes (the partial risk dict is discarded
when the exception propagates). -/
def assessRisk (command : List Char) : Except PyErr Risk :=
  match shlexSplit command with
  | none => .error .valueError
  | some parts =>
    let lenScore := if command.length > 100 then 20 else 0
    let lenReasons :=
      if command.length > 100 then ["Long command (>100 chars)".toList] else []
    let n := parts.length
    let compScore := if n > 3 then 10 * (n - 3) else 0
    let compReasons :=
      if n > 3 then
        ["Complex command (".toList ++ (toString n).toList ++ " parts)".toList]
      else []
    let netHits := opsHits networkOps command
    let dangHits := opsHits dangerOps command
    let score := lenScore + compScore + (netHits.map (·.2)).sum +
      (dangHits.map (·.2)).sum
    .ok
      { level := riskLevelOfScore score
        score := score
        reasons := lenReasons ++ compReasons ++
          (netHits.map fun ow => "Network operation: ".toList ++ ow.1) ++
          (dangHits.map fun ow => "Dangerous operation: ".toList ++ ow.1)
        suggestions :=
          (netHits.map fun ow => "Review ".toList ++ ow.1 ++ " usage carefully".toList) ++
          (dangHits.map fun ow => "Review ".toList ++ ow.1 ++ " usage carefully".toList) }

/-- Module-level `sanitize_command` of `security.py`: builds
`CommandValidator()` (empty allow-list), raises `SecurityError` when
`is_safe` is false, otherwise re-joins the shlex tokens with single
spaces. -/
def sanitizeCommand (command : List Char) : Except PyErr (List Char) :=
  match isSafeE [] (pyStrip command) with
  | .error e => .error e
  | .ok true =>
    match shlexSplit (pyStrip command) with
    | none => .error .valueError
    | some parts => .ok (joinSp parts)
  | .ok false =>
    match assessRisk (pyStrip command) with
    | .error e => .error e
    | .ok r =>
      .error (.securityError
        ("Command rejected (risk: ".toList ++ r.level ++ ")".toList))

/-! ## `utils/security.py` `CommandValidator` and
`command_engine.py` `CommandEngine.async_execute`

The `utils` variant matches its `PRIVILEGE_PATTERNS` with
`re.IGNORECASE`, modelled by lowercasing the command and writing the
literals in lowercase.  Patterns beginning with `\b` use the
boundary-restricted search. -/

/-- The character class `[;|&amp;]` of the utils chained-separator
pattern: the source contains the HTML-escaped `&amp;`, so the class is
literally the characters `;`, `|`, `&`, `a`, `m`, `p`. -/
def isAmpSepChar (c : Char) : Bool :=
  c = ';' || c = '|' || c = '&' || c = 'a' || c = 'm' || c = 'p'

/-- `utils/security.py` `PRIVILEGE_PATTERNS['privilege_escalation']`. -/
def utilsPrivilegeMatchers : List (List Char → Bool) :=
  [ -- r'\bsudo\s+\w+'
    searchToksB [litToks "sudo" ++ wsPlus ++ wordPlus],
    -- r'\bpkexec\s+\w+'
    searchToksB [litToks "pkexec" ++ wsPlus ++ wordPlus],
    -- r'\bdoas\s+\w+'
    searchToksB [litToks "doas" ++ wsPlus ++ wordPlus],
    -- r'\bStart-Process\s+.*-Verb\s+RunAs'
    searchToksB
      [litToks "start-process" ++ wsPlus ++ [dotStar] ++ litToks "-verb" ++
        wsPlus ++ litToks "runas"],
    -- r'[;|&amp;]\s*[;|&amp;]'
    searchToks [[.one isAmpSepChar, wsStar, .one isAmpSepChar]] ]

/-- `utils/security.py` `PRIVILEGE_PATTERNS['data_destruction']`. -/
def utilsDataMatchers : List (List Char → Bool) :=
  [ -- r'\b(rm|del)\s+-[rf]'
    searchToksB
      [litToks "rm" ++ wsPlus ++ [.one (· = '-'), .one fun c => c = 'r' || c = 'f'],
       litToks "del" ++ wsPlus ++ [.one (· = '-'), .one fun c => c = 'r' || c = 'f']],
    -- r'\bformat\s+\w+:'
    searchToksB [litToks "format" ++ wsPlus ++ wordPlus ++ litToks ":"],
    -- r'\bdd\s+if=.*of='
    searchToksB [litToks "dd" ++ wsPlus ++ litToks "if=" ++ [dotStar] ++ litToks "of="],
    -- r'\bshred\s+-n'
    searchToksB [litToks "shred" ++ wsPlus ++ litToks "-n"],
    -- r'\bchmod\s+0{3,4}\s'
    searchToksB
      [litToks "chmod" ++ wsPlus ++ litToks "0000" ++ [.one isPyWs],
       litToks "chmod" ++ wsPlus ++ litToks "000" ++ [.one isPyWs]] ]

/-- `utils/security.py` `PRIVILEGE_PATTERNS['network_operations']`. -/
def utilsNetworkMatchers : List (List Char → Bool) :=
  [ -- r'\b(curl|wget)\s+https?://'
    searchToksB
      [litToks "curl" ++ wsPlus ++ litToks "https://",
       litToks "curl" ++ wsPlus ++ litToks "http://",
       litToks "wget" ++ wsPlus ++ litToks "https://",
       litToks "wget" ++ wsPlus ++ litToks "http://"],
    -- r'\bssh\s+-o\s+StrictHostKeyChecking=no'
    searchToksB
      [litToks "ssh" ++ wsPlus ++ litToks "-o" ++ wsPlus ++
        litToks "stricthostkeychecking=no"],
    -- r'\bmount\s+.*-o\s+rw'
    searchToksB [litToks "mount" ++ wsPlus ++ [dotStar] ++ litToks "-o" ++
      wsPlus ++ litToks "rw"] ]

/-- `utils/security.py` `CommandValidator.assess_risk`: for each of the
levels `critical`/`high`/`medium` (in that order), the number of matching
patterns of the corresponding category; levels with no match are absent
(the Python result maps each present level to its matched patterns and
their count; the count is kept here).  Matching is `re.IGNORECASE`,
modelled by lowercasing the input. -/
def utilsAssessRisk (command : List Char) : List (List Char × Nat) :=
  let lc := command.map Char.toLower
  [("critical".toList, utilsPrivilegeMatchers),
   ("high".toList, utilsDataMatchers),
   ("medium".toList, utilsNetworkMatchers)].filterMap fun lp =>
    let cnt := (lp.2.filter fun m => m lc).length
    if cnt > 0 then some (lp.1, cnt) else none

/-- `CommandEngine._get_highest_risk_level`: the first of
`critical`/`high`/`medium` present among the assessment's keys, else
`low`. -/
def getHighestRiskLevel (results : List (List Char × Nat)) : List Char :=
  if results.any (·.1 = "critical".toList) then "critical".toList
  else if results.any (·.1 = "high".toList) then "high".toList
  else if results.any (·.1 = "medium".toList) then "medium".toList
  else "low".toList

/-- The `risk_order` dict of `async_execute`, looked up with a key that
is always one of the four levels. -/
def riskOrder (level : List Char) : Nat :=
  if level = "critical".toList then 3
  else if level = "high".toList then 2
  else if level = "medium".toList then 1
  else 0

/-- `risk_order.get(key, 1)`: dict lookup with default `1` for the
configured maximum risk level. -/
def riskOrderGet (level : List Char) : Nat :=
  if level = "critical".toList then 3
  else if level = "high".toList then 2
  else if level = "medium".toList then 1
  else if level = "low".toList then 0
  else 1

/-- The result dict of `CommandEngine.async_generate_command`: both its
`try` branch and its `except` branch return a dict with exactly the keys
`sanitized`, `raw` and `error` (`command_engine.py` lines 82–92), here
as an association list from key to value. -/
def asyncGenerateResult (sanitized raw error : List Char) :
    List (List Char × List Char) :=
  [("sanitized".toList, sanitized), ("raw".toList, raw),
   ("error".toList, error)]

/-- Python dict subscription `d[k]`: `none` models the `KeyError` raised
when the key is absent. -/
def dictGet (d : List (List Char × List Char)) (k : List Char) :
    Option (List Char) :=
  (d.find? fun kv => kv.1 == k).map (·.2)

/-- How far `CommandEngine.async_execute` gets with the generated
result: line 117 subscripts it with the key `command`, and only if that
lookup succeeded would the `sanitize_command` / `is_safe` / risk gate of
lines 117–127 and the `CommandContext` + `_execute_command` block run. -/
inductive AsyncOutcome where
  | raiseKeyError
  | reachesGate (command : List Char)
deriving DecidableEq, Repr

/-- The entry of `CommandEngine.async_execute` (line 117):
`command_data['command']` on the result of `async_generate_command`.
The continuation behind a successful lookup (the gate of lines 118–127)
is not modelled further, because the lookup never succeeds — the dict
has no `command` key, so every call raises `KeyError` (which the
`except Exception` handler logs and re-raises) before any validation or
execution.  The gate would also crash on its own: the `utils`
`CommandValidator` has no `__init__`, so `is_safe` reads the undefined
attributes `self._allowed_commands` / `self._compiled_patterns` and
raises `AttributeError`, which its `except ValueError` does not catch. -/
def asyncExecuteEntry (sanitized raw error : List Char) : AsyncOutcome :=
  match dictGet (asyncGenerateResult sanitized raw error) "command".toList with
  | none => .raiseKeyError
  | some cmd => .reachesGate cmd

/-! ## `main.py` `execute` -/

/-- `config.py` `ALLOWED_COMMANDS`. -/
def ALLOWED_COMMANDS : List (List Char) :=
  ["ls".toList, "cd".toList, "pwd".toList, "cat".toList, "grep".toList,
   "find".toList, "echo".toList]

/-- `main.py` `PRIVILEGE_PATTERNS['privilege_escalation']` (no `\b`,
`re.IGNORECASE`). -/
def mainPrivilegeMatchers : List (List Char → Bool) :=
  [ searchToks [litToks "sudo" ++ wsPlus ++ wordPlus],
    searchToks [litToks "pkexec" ++ wsPlus ++ wordPlus],
    searchToks [litToks "doas" ++ wsPlus ++ wordPlus],
    searchToks
      [litToks "start-process" ++ wsPlus ++ [dotStar] ++ litToks "-verb" ++
        wsPlus ++ litToks "runas"] ]

/-- `main.py` `PRIVILEGE_PATTERNS['data_destruction']`. -/
def mainDataMatchers : List (List Char → Bool) :=
  [ -- r'rm\s+-(rf|fr)'
    searchToks
      [litToks "rm" ++ wsPlus ++ litToks "-rf",
       litToks "rm" ++ wsPlus ++ litToks "-fr"],
    searchToks [litToks "format" ++ wsPlus ++ wordPlus ++ litToks ":"],
    searchToks [litToks "dd" ++ wsPlus ++ litToks "if=" ++ [dotStar] ++ litToks "of="],
    searchToks [litToks "shred" ++ wsPlus ++ litToks "-n"],
    searchToks
      [litToks "chmod" ++ wsPlus ++ litToks "0000" ++ [.one isPyWs],
       litToks "chmod" ++ wsPlus ++ litToks "000" ++ [.one isPyWs]] ]

/-- `main.py` `PRIVILEGE_PATTERNS['network_operations']`. -/
def mainNetworkMatchers : List (List Char → Bool) :=
  [ -- r'curl\s+-F\s+@'
    searchToks [litToks "curl" ++ wsPlus ++ litToks "-f" ++ wsPlus ++ litToks "@"],
    searchToks [litToks "wget" ++ wsPlus ++ litToks "--post-file"],
    searchToks
      [litToks "ssh" ++ wsPlus ++ litToks "-o" ++ wsPlus ++
        litToks "stricthostkeychecking=no"],
    searchToks [litToks "mount" ++ wsPlus ++ [dotStar] ++ litToks "-o" ++
      wsPlus ++ litToks "rw"] ]

/-- `main.py` `analyze_risk` (same shape as `utilsAssessRisk`, over
`main.py`'s own pattern table). -/
def mainAnalyzeRisk (command : List Char) : List (List Char × Nat) :=
  let lc := command.map Char.toLower
  [("critical".toList, mainPrivilegeMatchers),
   ("high".toList, mainDataMatchers),
   ("medium".toList, mainNetworkMatchers)].filterMap fun lp =>
    let cnt := (lp.2.filter fun m => m lc).length
    if cnt > 0 then some (lp.1, cnt) else none

/-- `main.py` `confirm_risky_command`: when the analysis contains the
`critical` level, the user is prompted (`userConfirmsY` = the user typed
`y`); otherwise the command is confirmed unconditionally. -/
def confirmRiskyCommand (userConfirmsY : Bool) (command : List Char) : Bool :=
  if (mainAnalyzeRisk command).any (·.1 = "critical".toList) then userConfirmsY
  else true

/-- The first positional argument of `subprocess.Popen`: either a raw
command string or an argv vector. -/
inductive PopenArgs where
  | str (s : List Char)
  | argv (v : List (List Char))
deriving DecidableEq, Repr

/-- The fields of the `subprocess.Popen` invocation in `main.py`
`execute` that determine how the command text reaches the OS. -/
structure SpawnCall where
  args : PopenArgs
  shell : Bool
  executable : Option (List Char)
deriving DecidableEq, Repr

/-- Result of `main.py` `execute` up to and including the spawn: the
early returns, the two uncaught exceptions from
`shlex.split(command)[0]` (which runs outside the `try`), or the
`subprocess.Popen` call that is reached. -/
inductive MainAction where
  | rejectEmpty
  | raiseValueError
  | raiseIndexError
  | rejectNotAllowed
  | rejectCancelled
  | spawn (call : SpawnCall)
deriving DecidableEq, Repr

/-- `main.py` `execute` (lines 146–172): empty command check, first-token
allow-list check, risky-command confirmation, then
`Popen(command, shell=False, executable='/bin/bash' if posix else None, ...)`
with the raw command string as `args`. -/
def mainExecuteAction (userConfirmsY : Bool) (posix : Bool)
    (command : List Char) : MainAction :=
  if command = [] then .rejectEmpty
  else
    match shlexSplit command with
    | none => .raiseValueError
    | some [] => .raiseIndexError
    | some (t :: _) =>
      if t ∉ ALLOWED_COMMANDS then .rejectNotAllowed
      else if !(confirmRiskyCommand userConfirmsY command) then .rejectCancelled
      else
        .spawn
          { args := .str command, shell := false
            executable := if posix then some "/bin/bash".toList else none }

/-! ## The OS-visible state of `execute` (`CommandContext`)

`CommandContext.__init__` saves the working directory and reads the
umask by setting `0o077` and immediately restoring the old value;
`__enter__` creates a fresh temporary directory and changes into it;
`__exit__` changes back to the saved working directory — and nothing
else: the temporary directory is never removed.  `main.py` `execute`
enters the same context manager twice (`with CommandContext() as ctx:`
followed by `with ctx:`), so two temporary directories are created per
call; both `__exit__`s run on every outcome of the body (normal
completion, `TimeoutExpired`, or any other exception) because `with`
guarantees it. -/

/-- Process-wide OS state touched by `execute`: current working
directory, umask, the set of existing temporary directories, and a
counter from which `tempfile.mkdtemp` derives fresh names. -/
structure OSState where
  cwd : List Char
  umask : Nat
  dirs : List (List Char)
  tmpCounter : Nat
deriving DecidableEq, Repr

/-- The fresh directory name returned by the n-th `tempfile.mkdtemp`. -/
def tmpDirName (n : Nat) : List Char := "/tmp/tmp".toList ++ (toString n).toList

/-- The data `CommandContext.__init__` captures. -/
structure CmdCtx where
  cwd : List Char
  umask : Nat
deriving DecidableEq, Repr

/-- `CommandContext.__init__`: save cwd; `os.umask(0o077)` sets the mask
to `0o077` (63) and returns the old one, which is immediately restored
by a second `os.umask` call. -/
def ctxInit (st : OSState) : CmdCtx × OSState :=
  let saved := st.umask
  let st1 := { st with umask := 63 }
  let st2 := { st1 with umask := saved }
  ({ cwd := st.cwd, umask := saved }, st2)

/-- `CommandContext.__enter__`: `os.chdir(tempfile.mkdtemp())`. -/
def ctxEnter (st : OSState) : OSState :=
  let d := tmpDirName st.tmpCounter
  { st with dirs := st.dirs ++ [d], tmpCounter := st.tmpCounter + 1, cwd := d }

/-- `CommandContext.__exit__`: `os.chdir(self.cwd)` — and nothing else. -/
def ctxExit (ctx : CmdCtx) (st : OSState) : OSState :=
  { st with cwd := ctx.cwd }

/-- How the body of the `with` blocks in `execute` ends. -/
inductive BodyOutcome where
  | completed
  | timeoutExpired
  | raised
deriving DecidableEq, Repr

/-- The OS-state effect of one `main.py` `execute` call: context
creation, the doubled `__enter__`, the body (whose subprocess only
receives `cwd=ctx.cwd` as a `Popen` argument and changes none of this
state), and the two guaranteed `__exit__`s.  The effect is the same for
every body outcome. -/
def mainExecuteOS (body : BodyOutcome) (st : OSState) : OSState :=
  let (ctx, st1) := ctxInit st
  let st2 := ctxEnter st1
  let st3 := ctxEnter st2
  let st4 := match body with
    | .completed | .timeoutExpired | .raised => st3
  let st5 := ctxExit ctx st4
  let st6 := ctxExit ctx st5
  st6

/-! ## Purity of `assess_risk` (`security.py`)

The only process-local mutable state in `security.py` is the
`lru_cache` on `is_safe`; `assess_risk` reads nothing but its argument
and the constant weight tables, so threading the process state through
it leaves the state untouched and the result independent of it. -/

/-- Process-local mutable state of the `security.py` module: the
`lru_cache` memo of `is_safe`. -/
structure ProcState where
  isSafeCache : List (List Char × Bool)
deriving DecidableEq, Repr

/-- `assess_risk` as a state-threading computation over the process
state. -/
def assessRiskSt (st : ProcState) (command : List Char) :
    Except PyErr Risk × ProcState :=
  (assessRisk command, st)

/-- The ordering `low < medium < high < critical` of discrete risk
levels. -/
def levelRank (level : List Char) : Nat :=
  if level = "critical".toList then 3
  else if level = "high".toList then 2
  else if level = "medium".toList then 1
  else 0

example : sepChainSearch "ls -la; rm -rf /".toList = false := by decide

example : sepChainSearch "a ;; b".toList = true := by decide

/-! ## Lemmas about the `shlex` lexer -/

/-- The number of tokens the state will have produced if the input ended
here (in a non-error mode): emitted tokens plus the pending one. -/
def stCount (st : LexSt) : Nat :=
  st.toks.length + (if st.cur ≠ [] || st.quoted then 1 else 0)

theorem lexRun_append (st : LexSt) (a b : List Char) :
    lexRun st (a ++ b) = lexRun (lexRun st a) b := by
  simp [lexRun, List.foldl_append]

theorem stCount_le_lexStep (st : LexSt) (c : Char) :
    stCount st ≤ stCount (lexStep st c) := by
  obtain ⟨toks, cur, quoted, mode⟩ := st
  cases mode <;> simp only [lexStep, stCount]
  all_goals repeat' split
  all_goals simp_all

theorem stCount_le_lexRun (st : LexSt) (s : List Char) :
    stCount st ≤ stCount (lexRun st s) := by
  induction s generalizing st with
  | nil => exact Nat.le_refl _
  | cons c cs ih =>
    exact Nat.le_trans (stCount_le_lexStep st c) (ih (lexStep st c))

theorem lexFinish_length {st : LexSt} {ts : List (List Char)}
    (h : lexFinish st = some ts) : ts.length = stCount st := by
  unfold lexFinish at h
  split at h
  all_goals first
    | exact Option.noConfusion h
    | · obtain rfl := Option.some.inj h
        simp only [stCount, List.length_append]
        split <;> simp

/-- A lexer state is busy once it has emitted a token, accumulated
characters, seen a quote, or sits right after an escape character; a
busy state can never finish with an empty token list, and stepping
preserves busyness. -/
def lexBusy (st : LexSt) : Bool :=
  st.toks ≠ [] || st.cur ≠ [] || st.quoted ||
    st.mode = .escWord || st.mode = .escDquote

theorem lexBusy_lexStep {st : LexSt} (c : Char) (h : lexBusy st = true) :
    lexBusy (lexStep st c) = true := by
  obtain ⟨toks, cur, quoted, mode⟩ := st
  cases mode <;> simp only [lexStep]
  all_goals repeat' split
  all_goals simp_all [lexBusy]

theorem lexBusy_lexRun {st : LexSt} (s : List Char) (h : lexBusy st = true) :
    lexBusy (lexRun st s) = true := by
  induction s generalizing st with
  | nil => exact h
  | cons c cs ih => exact ih (lexBusy_lexStep c h)

theorem lexBusy_first {c : Char} (h : isShlexWs c = false) :
    lexBusy (lexStep lexInit c) = true := by
  simp only [lexStep, lexInit]
  repeat' split
  all_goals simp_all [lexBusy]

theorem lexFinish_busy_ne_nil {st : LexSt} {ts : List (List Char)}
    (hb : lexBusy st = true) (h : lexFinish st = some ts) : ts ≠ [] := by
  obtain ⟨toks, cur, quoted, mode⟩ := st
  unfold lexFinish at h
  split at h
  all_goals first
    | exact Option.noConfusion h
    | · obtain rfl := Option.some.inj h
        intro hnil
        rcases List.append_eq_nil.mp hnil with ⟨h1, h2⟩
        subst h1
        split at h2
        · exact absurd h2 (by simp)
        · simp_all [lexBusy]

/-- A nonempty input whose first character is not `shlex` whitespace
never tokenizes to the empty token list. -/
theorem shlexSplit_some_ne_nil {c : Char} {cs : List Char}
    {ts : List (List Char)} (hws : isShlexWs c = false)
    (h : shlexSplit (c :: cs) = some ts) : ts ≠ [] := by
  have hrun : lexRun lexInit (c :: cs) = lexRun (lexStep lexInit c) cs := rfl
  refine lexFinish_busy_ne_nil ?_ (by rw [shlexSplit, hrun] at h; exact h)
  exact lexBusy_lexRun cs (lexBusy_first hws)

/-! ## Substring and stripping lemmas -/

theorem isPrefixChars_iff {l : List Char} :
    ∀ {s : List Char}, isPrefixChars l s = true ↔ l <+: s := by
  induction l with
  | nil => intro s; simp [isPrefixChars]
  | cons a as ih =>
    intro s
    cases s with
    | nil => simp [isPrefixChars]
    | cons b bs =>
      simp only [isPrefixChars, Bool.and_eq_true, decide_eq_true_eq,
        List.cons_prefix_cons, ih]

theorem isInfixChars_iff {l : List Char} :
    ∀ {s : List Char}, isInfixChars l s = true ↔ l <:+: s := by
  intro s
  induction s with
  | nil =>
    simp [isInfixChars, isPrefixChars_iff]
  | cons b bs ih =>
    simp only [isInfixChars, Bool.or_eq_true, isPrefixChars_iff, ih,
      List.infix_cons_iff]

theorem isInfixChars_append_right {l c : List Char} (f : List Char)
    (h : isInfixChars l c = true) : isInfixChars l (c ++ f) = true := by
  rw [isInfixChars_iff] at h ⊢
  exact h.trans (List.prefix_append c f).isInfix

theorem head_dropWhile {p : Char → Bool} :
    ∀ {s : List Char} {a : Char} {l : List Char},
      s.dropWhile p = a :: l → p a = false := by
  intro s
  induction s with
  | nil => intro a l h; exact absurd h (by simp)
  | cons x xs ih =>
    intro a l h
    rw [List.dropWhile_cons] at h
    split at h
    · exact ih h
    · obtain ⟨rfl, -⟩ := List.cons.inj h
      simp_all

theorem infix_dropWhile {p : Char → Bool} {a : Char} {l₂ : List Char}
    (hp : p a = false) :
    ∀ {s : List Char}, (a :: l₂) <:+: s → (a :: l₂) <:+: s.dropWhile p := by
  intro s
  induction s with
  | nil => intro h; simp at h
  | cons x xs ih =>
    intro h
    rw [List.dropWhile_cons]
    split
    · rcases List.infix_cons_iff.mp h with hpre | hinf
      · rcases hpre with ⟨t, ht⟩
        obtain ⟨rfl, -⟩ := List.cons.inj ht.symm
        simp_all
      · exact ih hinf
    · exact h

theorem infix_dropTrailWhile {p : Char → Bool} {b : Char}
    {l l₂ s : List Char} (hrev : l.reverse = b :: l₂) (hp : p b = false)
    (h : l <:+: s) : l <:+: dropTrailWhile p s := by
  have h1 : l.reverse <:+: s.reverse := List.reverse_infix.mpr h
  rw [hrev] at h1
  have h2 := infix_dropWhile hp h1
  rw [dropTrailWhile]
  have h3 : (b :: l₂).reverse <:+: (s.reverse.dropWhile p).reverse :=
    List.reverse_infix.mpr h2
  rwa [← hrev, List.reverse_reverse] at h3

/-- A nonempty infix whose first and last characters are not whitespace
survives `str.strip()`. -/
theorem infix_pyStrip {a b : Char} {l₁ l₂ l s : List Char}
    (hcons : l = a :: l₁) (hrev : l.reverse = b :: l₂)
    (ha : isPyWs a = false) (hb : isPyWs b = false) (h : l <:+: s) :
    l <:+: pyStrip s := by
  rw [pyStrip]
  refine infix_dropTrailWhile hrev hb ?_
  rw [hcons] at h ⊢
  exact infix_dropWhile ha h

theorem pyStrip_head {s : List Char} {a : Char} {rest : List Char}
    (h : pyStrip s = a :: rest) : isPyWs a = false := by
  rw [pyStrip, dropTrailWhile] at h
  have hpre : (((s.dropWhile isPyWs).reverse.dropWhile isPyWs).reverse) <+:
      s.dropWhile isPyWs := by
    obtain ⟨t, ht⟩ := List.dropWhile_suffix (l := (s.dropWhile isPyWs).reverse)
      (p := isPyWs)
    refine ⟨t.reverse, ?_⟩
    have := congrArg List.reverse ht
    simpa using this
  rw [h] at hpre
  obtain ⟨t, ht⟩ := hpre
  exact head_dropWhile ht.symm

theorem isShlexWs_le_isPyWs {c : Char} (h : isPyWs c = false) :
    isShlexWs c = false := by
  simp only [isPyWs, Bool.or_eq_false_iff, decide_eq_false_iff_not] at h
  simp only [isShlexWs, Bool.or_eq_false_iff, decide_eq_false_iff_not]
  tauto

/-! ## The chained-separator pattern -/

theorem afterSep_ws {c2 : Char} (post : List Char) (h2 : isSepChar c2 = true) :
    ∀ w : List Char, (∀ x ∈ w, isPyWs x = true) →
      afterSep (w ++ c2 :: post) = true := by
  intro w
  induction w with
  | nil =>
    intro _
    simp [afterSep, h2]
  | cons x xs ih =>
    intro hw
    simp only [List.cons_append, afterSep]
    split
    · rfl
    · rw [if_pos (hw x (by simp))]
      exact ih fun y hy => hw y (by simp [hy])

theorem sepChainSearch_append_left {r : List Char} (pre : List Char)
    (h : sepChainSearch r = true) : sepChainSearch (pre ++ r) = true := by
  induction pre with
  | nil => exact h
  | cons x xs ih =>
    simp only [List.cons_append, sepChainSearch, Bool.or_eq_true]
    exact Or.inr ih

/-- Any string containing two control-flow separators in sequence
(separated only by whitespace) is matched by the first blacklist
pattern. -/
theorem sepChainSearch_of_infix {c1 c2 : Char} {w s : List Char}
    (h1 : isSepChar c1 = true) (h2 : isSepChar c2 = true)
    (hw : ∀ x ∈ w, isPyWs x = true) (h : (c1 :: (w ++ [c2])) <:+: s) :
    sepChainSearch s = true := by
  obtain ⟨pre, post, hps⟩ := h
  have hgoal : s = pre ++ (c1 :: (w ++ c2 :: post)) := by rw [← hps]; simp
  rw [hgoal]
  refine sepChainSearch_append_left pre ?_
  simp only [sepChainSearch, Bool.or_eq_true, Bool.and_eq_true]
  exact Or.inl ⟨h1, afterSep_ws post h2 w hw⟩

theorem blacklist_any_of_sepChain {c : List Char}
    (h : sepChainSearch c = true) :
    (blacklistMatchers.any fun m => m c) = true := by
  simp [blacklistMatchers, List.any_cons, h]

/-! ## Whitespace splitting and joining -/

theorem splitWsGo_append {w : List Char} (hw : ∀ c ∈ w, isPyWs c = false) :
    ∀ cur s, splitWsGo cur (w ++ s) = splitWsGo (w.reverse ++ cur) s := by
  induction w with
  | nil => intro cur s; simp
  | cons x xs ih =>
    intro cur s
    have hx : isPyWs x = false := hw x (by simp)
    have h1 : (x :: xs) ++ s = x :: (xs ++ s) := rfl
    rw [h1]
    show (if isPyWs x = true then _ else splitWsGo (x :: cur) (xs ++ s)) = _
    rw [if_neg (by simp [hx])]
    rw [ih (fun c hc => hw c (by simp [hc])) (x :: cur) s]
    have h2 : (x :: xs).reverse ++ cur = xs.reverse ++ (x :: cur) := by simp
    rw [h2]

theorem splitWsGo_words :
    ∀ (s cur : List Char), (∀ c ∈ cur, isPyWs c = false) →
      ∀ w ∈ splitWsGo cur s, w ≠ [] ∧ ∀ c ∈ w, isPyWs c = false := by
  intro s
  induction s with
  | nil =>
    intro cur hcur w hw
    by_cases hc : cur = []
    · simp only [splitWsGo, if_pos hc] at hw
      exact absurd hw (by simp)
    · simp only [splitWsGo, if_neg hc] at hw
      have hww : w = cur.reverse := by simpa using hw
      subst hww
      exact ⟨by simpa using hc, fun c hcc => hcur c (List.mem_reverse.mp hcc)⟩
  | cons c cs ih =>
    intro cur hcur w hw
    simp only [splitWsGo] at hw
    by_cases hpc : isPyWs c = true
    · rw [if_pos hpc] at hw
      by_cases hc : cur = []
      · rw [if_pos hc] at hw
        exact ih [] (by simp) w hw
      · rw [if_neg hc] at hw
        rcases List.mem_cons.mp hw with rfl | hw2
        · exact ⟨by simpa using hc, fun x hx => hcur x (List.mem_reverse.mp hx)⟩
        · exact ih [] (by simp) w hw2
    · rw [if_neg hpc] at hw
      refine ih (c :: cur) ?_ w hw
      intro x hx
      rcases List.mem_cons.mp hx with rfl | hx2
      · simp only [Bool.not_eq_true] at hpc
        exact hpc
      · exact hcur x hx2

theorem splitWs_words {s : List Char} :
    ∀ w ∈ splitWs s, w ≠ [] ∧ ∀ c ∈ w, isPyWs c = false :=
  splitWsGo_words s [] (by simp)

theorem splitWs_joinSp :
    ∀ {ws : List (List Char)},
      (∀ w ∈ ws, w ≠ [] ∧ ∀ c ∈ w, isPyWs c = false) →
      splitWs (joinSp ws) = ws := by
  intro ws
  induction ws with
  | nil => intro _; rfl
  | cons w ws2 ih =>
    intro h
    obtain ⟨hne, hchars⟩ := h w (by simp)
    cases ws2 with
    | nil =>
      show splitWsGo [] (joinSp [w]) = [w]
      have : joinSp [w] = w ++ [] := by simp [joinSp]
      rw [this, splitWsGo_append hchars [] []]
      simp only [splitWsGo, List.append_nil]
      rw [if_neg (by simpa using hne)]
      simp
    | cons w2 ws3 =>
      show splitWsGo [] (joinSp (w :: w2 :: ws3)) = w :: w2 :: ws3
      have hj : joinSp (w :: w2 :: ws3) = w ++ ' ' :: joinSp (w2 :: ws3) := rfl
      rw [hj, splitWsGo_append hchars [] (' ' :: joinSp (w2 :: ws3))]
      simp only [splitWsGo, List.append_nil]
      rw [if_pos (by simp [isPyWs]), if_neg (by simpa using hne)]
      simp only [List.reverse_reverse]
      exact congrArg (w :: ·) (ih fun v hv => h v (by simp [hv]))

theorem reSubCE_no_hash {s : List Char} (h : '#' ∉ s) : reSubCE s = s := by
  induction s with
  | nil => rfl
  | cons c cs ih =>
    have hc : c ≠ '#' := fun hcc => h (by simp [hcc])
    simp only [reSubCE, hc, Bool.false_and, Bool.false_eq_true, if_false,
      decide_eq_true_eq]
    rw [if_neg (by simp [hc])]
    exact congrArg (c :: ·) (ih fun hm => h (by simp [hm]))

/-! ## Monotonicity of `assess_risk` under appended text -/

/-- Appending text never loses a token: if both the command and its
extension tokenize, the extension has at least as many tokens. -/
theorem shlexSplit_length_mono {c f : List Char} {ts ts' : List (List Char)}
    (h1 : shlexSplit c = some ts) (h2 : shlexSplit (c ++ f) = some ts') :
    ts.length ≤ ts'.length := by
  rw [shlexSplit] at h1
  rw [shlexSplit, lexRun_append] at h2
  rw [lexFinish_length h1, lexFinish_length h2]
  exact stCount_le_lexRun (lexRun lexInit c) f

/-- Every op found in a command is still found after appending text, so
the summed weights never decrease. -/
theorem opsHits_sum_mono (ops : List (List Char × Nat)) (c f : List Char) :
    ((opsHits ops c).map (·.2)).sum ≤ ((opsHits ops (c ++ f)).map (·.2)).sum := by
  induction ops with
  | nil => simp [opsHits]
  | cons o os ih =>
    simp only [opsHits, List.filter_cons] at *
    by_cases ho : isInfixChars o.1 c = true
    · rw [if_pos ho, if_pos (isInfixChars_append_right f ho)]
      simpa using Nat.add_le_add_left ih o.2
    · rw [if_neg ho]
      by_cases ho2 : isInfixChars o.1 (c ++ f) = true
      · rw [if_pos ho2]
        refine Nat.le_trans ih ?_
        simp
      · rw [if_neg ho2]
        exact ih

theorem levelRank_riskLevelOfScore (a : Nat) :
    levelRank (riskLevelOfScore a) =
      if a ≥ 50 then 3 else if a ≥ 30 then 2 else if a ≥ 15 then 1 else 0 := by
  unfold riskLevelOfScore
  split
  · decide
  · split
    · decide
    · split
      · decide
      · decide

/-- The discrete level is a monotone function of the score. -/
theorem levelRank_mono {a b : Nat} (h : a ≤ b) :
    levelRank (riskLevelOfScore a) ≤ levelRank (riskLevelOfScore b) := by
  rw [levelRank_riskLevelOfScore, levelRank_riskLevelOfScore]
  repeat' split
  all_goals omega

/-- Shape of a successful `assess_risk` result. -/
theorem assessRisk_ok {c : List Char} {r : Risk} (h : assessRisk c = .ok r) :
    r.level = riskLevelOfScore r.score ∧
      ∃ ts, shlexSplit c = some ts ∧
        r.score = (if c.length > 100 then 20 else 0) +
          (if ts.length > 3 then 10 * (ts.length - 3) else 0) +
          ((opsHits networkOps c).map (·.2)).sum +
          ((opsHits dangerOps c).map (·.2)).sum := by
  unfold assessRisk at h
  split at h
  · exact Except.noConfusion h
  · rename_i ts hts
    obtain rfl := Except.ok.inj h
    exact ⟨rfl, ts, hts, rfl⟩

/-- Claim C9 (amended): sanitization is idempotent on every input whose
sanitized form contains no `#` (the comment regex strips only last-line
comments, so a `#` on an earlier line can survive the first pass and be
stripped by the second; when no `#` survives, the second pass is the
identity on the already-collapsed text). -/
theorem utilsSanitize_idem_of_no_hash (x : List Char)
    (h : '#' ∉ utilsSanitizeCommand x) :
    utilsSanitizeCommand (utilsSanitizeCommand x) = utilsSanitizeCommand x := by
  by_cases hz : utilsSanitizeCommand x = []
  · rw [hz]; rfl
  · by_cases hx : x = []
    · exact absurd (by rw [hx]; rfl) hz
    · have hy : utilsSanitizeCommand x = joinSp (splitWs (reSubCE x)) := by
        rw [utilsSanitizeCommand, if_neg hx]
      calc utilsSanitizeCommand (utilsSanitizeCommand x)
          = joinSp (splitWs (reSubCE (utilsSanitizeCommand x))) := by
            rw [utilsSanitizeCommand, if_neg hz]
        _ = joinSp (splitWs (utilsSanitizeCommand x)) := by
            rw [reSubCE_no_hash h]
        _ = joinSp (splitWs (joinSp (splitWs (reSubCE x)))) := by rw [hy]
        _ = joinSp (splitWs (reSubCE x)) := by
            rw [splitWs_joinSp splitWs_words]
        _ = utilsSanitizeCommand x := hy.symm

/-! ## Further helper lemmas for the claim theorems -/

theorem shlexSplit_pyStrip_ne_some_nil {s : List Char}
    (h : pyStrip s ≠ []) : shlexSplit (pyStrip s) ≠ some [] := by
  intro hcon
  cases hps : pyStrip s with
  | nil => exact h hps
  | cons a rest =>
    rw [hps] at hcon
    exact shlexSplit_some_ne_nil (isShlexWs_le_isPyWs (pyStrip_head hps)) hcon rfl

theorem sepChar_not_ws {c : Char} (h : isSepChar c = true) :
    isPyWs c = false := by
  simp only [isSepChar, Bool.or_eq_true, decide_eq_true_eq] at h
  rcases h with (rfl | rfl) | rfl <;> decide

/-- With an empty allow-list, `is_safe` returns `False` on every input:
every branch of the function yields `False` once `parsed[0] in
self._allowed_commands` cannot hold (and the `IndexError` branch is
unreachable because a stripped nonempty string always produces at least
one token). -/
theorem isSafeE_empty_allowlist (s : List Char) : isSafeE [] s = .ok false := by
  unfold isSafeE
  by_cases h0 : pyStrip s = []
  · rw [if_pos h0]
  · rw [if_neg h0]
    split
    · rfl
    · split
      · rfl
      · cases hsp : shlexSplit (pyStrip s) with
        | none => rfl
        | some parsed =>
          cases parsed with
          | nil => exact absurd hsp (shlexSplit_pyStrip_ne_some_nil h0)
          | cons t ts => simp

/-! ## Claim theorems -/

/-- Claim C1: a command whose first token is not in the allow-list is
never passed to execution, and the allow-list check is a hard
precondition before risk.  In `main.py` `execute` — the only decision
path that runs — such a command is rejected with
`rejectNotAllowed` for every confirmation input (so independently of
risk); and `CommandEngine.async_execute` raises `KeyError` on line 117
for every generated result (the dict it subscripts has no `command`
key), so no command whatsoever reaches its gate or its execution
block. -/
theorem c1_allowlist_precedence :
    (∀ (uc posix : Bool) (cmd t : List Char) (ts : List (List Char)),
      shlexSplit cmd = some (t :: ts) → t ∉ ALLOWED_COMMANDS →
      mainExecuteAction uc posix cmd = .rejectNotAllowed) ∧
    (∀ sanitized raw error : List Char,
      asyncExecuteEntry sanitized raw error = .raiseKeyError) := by
  constructor
  · intro uc posix cmd t ts hsplit hmem
    have hne : cmd ≠ [] := by
      intro hnil
      subst hnil
      have hempty : shlexSplit ([] : List Char) = some [] := by decide
      have := Option.some.inj (hempty.symm.trans hsplit)
      exact List.noConfusion this
    unfold mainExecuteAction
    rw [if_neg hne, hsplit]
    exact if_pos hmem
  · intro sanitized raw error
    rfl

/-- Claim C1 (witness): `curl x` is rejected by `execute` through the
allow-list check, and `async_execute` raises `KeyError` on a concrete
generated result. -/
theorem c1_witness :
    mainExecuteAction true true "curl x".toList = .rejectNotAllowed ∧
    asyncExecuteEntry "foo".toList "raw text".toList [] = .raiseKeyError :=
  ⟨c1_allowlist_precedence.1 true true "curl x".toList "curl".toList
    ["x".toList] (by decide) (by decide),
   c1_allowlist_precedence.2 "foo".toList "raw text".toList []⟩

/-- Claim C2 (counterexample): after an `execute` call the first
temporary directory created for it still exists — `CommandContext.__exit__`
only restores the working directory and never removes the directory. -/
theorem c2_counterexample :
    tmpDirName 0 ∈
      (mainExecuteOS .completed ⟨"/home/user".toList, 18, [], 0⟩).dirs ∧
    (mainExecuteOS .completed ⟨"/home/user".toList, 18, [], 0⟩).dirs ≠ [] := by
  decide

/-- Claim C2 (amended): after every `execute` call — normal completion,
timeout, or exception — the working directory and umask equal their
pre-call values, but the two temporary directories created by the
doubled `__enter__` remain on the filesystem. -/
theorem c2_amended : ∀ (body : BodyOutcome) (st : OSState),
    (mainExecuteOS body st).cwd = st.cwd ∧
    (mainExecuteOS body st).umask = st.umask ∧
    (mainExecuteOS body st).dirs =
      st.dirs ++ [tmpDirName st.tmpCounter, tmpDirName (st.tmpCounter + 1)] := by
  intro body st
  cases body <;> exact ⟨rfl, rfl, by simp [mainExecuteOS, ctxInit, ctxEnter, ctxExit]⟩

/-- Claim C3 (counterexample): `main.py` `execute` performs no structural
check at all: the input `ls ../x` contains the relative path traversal
marker `../` yet is spawned (its first token is allow-listed and no
`critical` pattern matches). -/
theorem c3_counterexample :
    isInfixChars "../".toList "ls ../x".toList = true ∧
    mainExecuteAction true true "ls ../x".toList =
      .spawn { args := .str "ls ../x".toList, shell := false,
               executable := some "/bin/bash".toList } := by
  decide

/-- Claim C3 (amended): the structural rejections do hold for
`CommandValidator.is_safe` in `security.py`: every input containing
`../`, `/./`, `$(`, `${`, or two control-flow separators in sequence is
rejected (`is_safe` is `False`), for every allow-list, without consulting
risk scoring — but the `main.py` execution path never applies them. -/
theorem c3_amended : ∀ (allowed : List (List Char)) (s : List Char),
    (isInfixChars "../".toList s = true ∨ isInfixChars "/./".toList s = true ∨
     isInfixChars "$(".toList s = true ∨
     isInfixChars ("$".toList ++ [cLBrace]) s = true ∨
     (∃ (c1 c2 : Char) (w : List Char), isSepChar c1 = true ∧
       isSepChar c2 = true ∧ (∀ x ∈ w, isPyWs x = true) ∧
       (c1 :: (w ++ [c2])) <:+: s)) →
    isSafeE allowed s = .ok false := by
  intro allowed s h
  by_cases h0 : pyStrip s = []
  · unfold isSafeE
    rw [if_pos h0]
  · have transfer : ∀ (m : List Char) (a b : Char) (l₁ l₂ : List Char),
        m = a :: l₁ → m.reverse = b :: l₂ → isPyWs a = false →
        isPyWs b = false → isInfixChars m s = true →
        isInfixChars m (pyStrip s) = true := by
      intro m a b l₁ l₂ hc hr ha hb hm
      rw [isInfixChars_iff] at hm ⊢
      exact infix_pyStrip hc hr ha hb hm
    unfold isSafeE
    rw [if_neg h0]
    rcases h with h | h | h | h | ⟨c1, c2, w, h1, h2, hw, hin⟩
    · rw [if_pos (by rw [transfer "../".toList '.' '/' ['.', '/'] ['.', '.']
        (by decide) (by decide) (by decide) (by decide) h]; simp)]
    · rw [if_pos (by rw [transfer "/./".toList '/' '/' ['.', '/'] ['.', '/']
        (by decide) (by decide) (by decide) (by decide) h]; simp)]
    · have hm := transfer "$(".toList '$' '(' ['('] ['$']
        (by decide) (by decide) (by decide) (by decide) h
      split
      · rfl
      · rw [if_pos (by rw [hm]; simp)]
    · have hm := transfer ("$".toList ++ [cLBrace]) '$' cLBrace [cLBrace] ['$']
        (by decide) (by decide) (by decide) (by decide) h
      split
      · rfl
      · rw [if_pos (by rw [hm]; simp)]
    · have hchain : sepChainSearch (pyStrip s) = true := by
        refine sepChainSearch_of_infix h1 h2 hw ?_
        have hrev : (c1 :: (w ++ [c2])).reverse = c2 :: (w.reverse ++ [c1]) := by
          simp
        exact infix_pyStrip rfl hrev (sepChar_not_ws h1) (sepChar_not_ws h2) hin
      split
      · rfl
      · split
        · rfl
        · cases hsp : shlexSplit (pyStrip s) with
          | none => rfl
          | some parsed =>
            cases parsed with
            | nil => exact absurd hsp (shlexSplit_pyStrip_ne_some_nil h0)
            | cons t ts =>
              have hany := blacklist_any_of_sepChain hchain
              simp [hany]

/-- Claim C3 (witness for the amended theorem): `cat ../secrets` is
rejected by `is_safe` even though `cat` is allow-listed. -/
theorem c3_witness :
    isSafeE ALLOWED_COMMANDS "cat ../secrets".toList = .ok false :=
  c3_amended ALLOWED_COMMANDS "cat ../secrets".toList (Or.inl (by decide))

/-- Claim C4 (counterexample): the `Popen` call of `main.py` `execute`
receives the raw command string `ls -la` as its `args`, not the parsed
token vector `["ls", "-la"]`. -/
theorem c4_counterexample :
    mainExecuteAction true true "ls -la".toList =
      .spawn { args := .str "ls -la".toList, shell := false,
               executable := some "/bin/bash".toList } ∧
    PopenArgs.str "ls -la".toList ≠ PopenArgs.argv ["ls".toList, "-la".toList] := by
  decide

/-- Claim C4 (amended): every spawn performed by `execute` has
`shell=False` (no shell interpretation of metacharacters by `Popen`),
but its `args` is the raw command string, not the token vector. -/
theorem c4_amended : ∀ (uc posix : Bool) (cmd : List Char) (call : SpawnCall),
    mainExecuteAction uc posix cmd = .spawn call →
    call.shell = false ∧ call.args = .str cmd := by
  intro uc posix cmd call h
  unfold mainExecuteAction at h
  split at h
  · exact MainAction.noConfusion h
  · split at h
    · exact MainAction.noConfusion h
    · exact MainAction.noConfusion h
    · split at h
      · exact MainAction.noConfusion h
      · split at h
        · exact MainAction.noConfusion h
        · obtain rfl := (MainAction.spawn.inj h).symm
          exact ⟨rfl, rfl⟩

/-- Claim C4 (witness for the amended theorem): the spawn of `pwd`. -/
theorem c4_witness :
    (SpawnCall.mk (.str "pwd".toList) false (some "/bin/bash".toList)).shell
        = false ∧
    (SpawnCall.mk (.str "pwd".toList) false (some "/bin/bash".toList)).args
        = .str "pwd".toList :=
  c4_amended true true "pwd".toList
    ⟨.str "pwd".toList, false, some "/bin/bash".toList⟩ (by decide)

/-- Claim C5 (counterexample): `assess_risk` is not total — on the input
`a '` (unbalanced quote) the `shlex.split` call inside it raises
`ValueError`, which propagates out of `assess_risk`. -/
theorem c5_counterexample :
    assessRisk ("a ".toList ++ [cSQuote]) = .error .valueError := by decide

/-- Claim C5 (amended): `assess_risk` returns a result exactly on the
inputs `shlex.split` can tokenize, and raises `ValueError` on the rest
(the `utils` sanitizer, by contrast, is a total function by
construction). -/
theorem c5_amended : ∀ s : List Char,
    (∃ r, assessRisk s = .ok r) ↔ (shlexSplit s).isSome := by
  intro s
  unfold assessRisk
  cases h : shlexSplit s with
  | none => simp
  | some parts => simp

/-- Claim C5 (witness for the amended theorem): `cat notes.txt`
tokenizes, so `assess_risk` returns a result on it. -/
theorem c5_witness : ∃ r, assessRisk "cat notes.txt".toList = .ok r :=
  (c5_amended "cat notes.txt".toList).mpr (by decide)

/-- Claim C6: the discrete risk level of `assess_risk` is determined
from the total score by the fixed thresholds: `score ≥ 50 → critical`,
`30 ≤ score < 50 → high`, `15 ≤ score < 30 → medium`, `score < 15 →
low`. -/
theorem c6_thresholds : ∀ (cmd : List Char) (r : Risk),
    assessRisk cmd = .ok r →
    (50 ≤ r.score → r.level = "critical".toList) ∧
    (30 ≤ r.score ∧ r.score < 50 → r.level = "high".toList) ∧
    (15 ≤ r.score ∧ r.score < 30 → r.level = "medium".toList) ∧
    (r.score < 15 → r.level = "low".toList) := by
  intro cmd r h
  have hl := (assessRisk_ok h).1
  refine ⟨?_, ?_, ?_, ?_⟩
  · intro hh
    rw [hl]
    unfold riskLevelOfScore
    rw [if_pos (by omega)]
  · intro hh
    rw [hl]
    unfold riskLevelOfScore
    rw [if_neg (by omega), if_pos (by omega)]
  · intro hh
    rw [hl]
    unfold riskLevelOfScore
    rw [if_neg (by omega), if_neg (by omega), if_pos (by omega)]
  · intro hh
    rw [hl]
    unfold riskLevelOfScore
    rw [if_neg (by omega), if_neg (by omega), if_neg (by omega)]

/-- The assessment `assess_risk` produces for `rm x` (and for
`ls rm -r`): score 30, level `high`. -/
def riskHigh30 : Risk :=
  ⟨"high".toList, 30, ["Dangerous operation: rm".toList],
    ["Review rm usage carefully".toList]⟩

/-- The assessment `assess_risk` produces for `ls`: score 0, level
`low`. -/
def riskLow0 : Risk := ⟨"low".toList, 0, [], []⟩

/-- Claim C6 (witness): `rm x` scores 30 and is classified `high`. -/
theorem c6_witness : riskHigh30.level = "high".toList :=
  (c6_thresholds "rm x".toList _ (by decide)).2.1 (by decide)

/-- Claim C7: `assess_risk` is deterministic and referentially
transparent — threading the process-local mutable state (the only such
state in the module is the `is_safe` memo cache) through it shows the
result is independent of that state and the state is left unchanged, so
two calls in the same process or in different processes agree. -/
theorem c7_deterministic : ∀ (st1 st2 : ProcState) (cmd : List Char),
    (assessRiskSt st1 cmd).1 = (assessRiskSt st2 cmd).1 ∧
    (assessRiskSt st1 cmd).2 = st1 :=
  fun _ _ _ => ⟨rfl, rfl⟩

/-- A text fragment matching one of the dangerous-operation or
network-operation substrings of `assess_risk`. -/
def dangerousFrag (f : List Char) : Bool :=
  (networkOps ++ dangerOps).any fun ow => isInfixChars ow.1 f

/-- Claim C8: extending a command with a fragment that matches a
dangerous pattern never decreases the risk score (when both commands
tokenize), and the discrete level is a monotone function of the score. -/
theorem c8_monotone : ∀ (c f : List Char) (r r' : Risk),
    assessRisk c = .ok r → assessRisk (c ++ f) = .ok r' →
    dangerousFrag f = true →
    r.score ≤ r'.score ∧ levelRank r.level ≤ levelRank r'.level := by
  intro c f r r' h1 h2 _hf
  obtain ⟨hl1, ts, hts, hs1⟩ := assessRisk_ok h1
  obtain ⟨hl2, ts2, hts2, hs2⟩ := assessRisk_ok h2
  have htl : ts.length ≤ ts2.length := shlexSplit_length_mono hts hts2
  have hscore : r.score ≤ r'.score := by
    rw [hs1, hs2]
    have hlen : c.length ≤ (c ++ f).length := by simp
    have t1 : (if c.length > 100 then 20 else 0) ≤
        (if (c ++ f).length > 100 then (20 : Nat) else 0) := by
      split
      · split
        · omega
        · omega
      · split
        · omega
        · omega
    have t2 : (if ts.length > 3 then 10 * (ts.length - 3) else 0) ≤
        (if ts2.length > 3 then 10 * (ts2.length - 3) else 0) := by
      split
      · split
        · omega
        · omega
      · split
        · omega
        · omega
    have t3 := opsHits_sum_mono networkOps c f
    have t4 := opsHits_sum_mono dangerOps c f
    omega
  refine ⟨hscore, ?_⟩
  rw [hl1, hl2]
  exact levelRank_mono hscore

/-- Claim C8 (witness): appending the fragment containing `rm` to `ls`
raises the score from 0 to 30 and the level from `low` to `high`. -/
theorem c8_witness :
    riskLow0.score ≤ riskHigh30.score ∧
    levelRank riskLow0.level ≤ levelRank riskHigh30.level :=
  c8_monotone "ls".toList " rm -r".toList riskLow0 riskHigh30
    (by decide) (by decide) (by decide)

/-- Claim C9 (counterexample): sanitization is not idempotent — for the
input `a#b\nc` the comment regex strips nothing on the first pass (the
`#` is not on the last line), whitespace collapsing then merges the
lines, and the second pass strips from the now-last-line `#`. -/
theorem c9_counterexample :
    utilsSanitizeCommand (utilsSanitizeCommand "a#b\nc".toList) ≠
      utilsSanitizeCommand "a#b\nc".toList := by
  decide

/-- Claim C9 (witness for the amended theorem): idempotence on `ls -l`,
whose sanitized form contains no `#`. -/
theorem c9_witness :
    '#' ∉ utilsSanitizeCommand "ls -l".toList ∧
    utilsSanitizeCommand (utilsSanitizeCommand "ls -l".toList) =
      utilsSanitizeCommand "ls -l".toList :=
  ⟨by decide, utilsSanitize_idem_of_no_hash "ls -l".toList (by decide)⟩

/-- Claim C10 (counterexample): the module-level `sanitize_command` does
not raise `SecurityError` on every input — on `pwd '` the
`assess_risk` call inside it raises `ValueError` (unbalanced quote)
before the `SecurityError` is constructed. -/
theorem c10_counterexample :
    sanitizeCommand ("pwd ".toList ++ [cSQuote]) = .error .valueError := by
  decide

/-- Claim C10 (amended): a default-constructed `CommandValidator` has an
empty allow-list, so `is_safe` returns `False` for every input; the
module-level `sanitize_command` therefore raises on every input —
`SecurityError` on every input whose stripped form tokenizes (including
benign allow-listed commands such as `pwd`), and `ValueError` on inputs
with unbalanced quotes. -/
theorem c10_amended : ∀ s : List Char,
    isSafeE [] s = .ok false ∧
    (∃ e, sanitizeCommand s = .error e) ∧
    (∀ ts, shlexSplit (pyStrip s) = some ts →
      ∃ msg, sanitizeCommand s = .error (.securityError msg)) := by
  intro s
  refine ⟨isSafeE_empty_allowlist s, ?_, ?_⟩
  · unfold sanitizeCommand
    rw [isSafeE_empty_allowlist (pyStrip s)]
    cases har : assessRisk (pyStrip s) with
    | error e => exact ⟨e, rfl⟩
    | ok r => exact ⟨_, rfl⟩
  · intro ts hts
    unfold sanitizeCommand
    rw [isSafeE_empty_allowlist (pyStrip s)]
    have har : ∃ r, assessRisk (pyStrip s) = .ok r := by
      unfold assessRisk
      rw [hts]
      exact ⟨_, rfl⟩
    obtain ⟨r, har⟩ := har
    rw [har]
    exact ⟨_, rfl⟩

/-- Claim C10 (witness for the amended theorem): on the benign
allow-listed command `pwd`, `sanitize_command` raises `SecurityError`. -/
theorem c10_witness :
    ∃ msg, sanitizeCommand "pwd".toList = .error (.securityError msg) :=
  (c10_amended "pwd".toList).2.2 ["pwd".toList] (by decide)

example : isSafeE [] "pwd".toList = .ok false := by decide

example : assessRisk "pwd".toList =
    .ok { level := "low".toList, score := 0, reasons := [], suggestions := [] } := by
  decide

example : assessRisk ("a ".toList ++ [cSQuote]) = .error .valueError := by decide

example : sanitizeCommand ("pwd ".toList ++ [cSQuote]) = .error .valueError := by
  decide

example : shlexSplit ("pwd ".toList ++ [cSQuote]) = none := by decide

example : splitWs "  a  bc ".toList = ["a".toList, "bc".toList] := by decide

example : utilsSanitizeCommand "a#b\nc".toList = "a#b c".toList := by decide

example : utilsSanitizeCommand "a#b c".toList = "a".toList := by decide

end CmdPilot
